import Mathlib

set_option maxRecDepth 100000

/-!
Shallow embedding of `src/build_db.py` (PDF-ingestion pipeline for a legal-case
SQLite database): text parsing with Python-`re` semantics, the extraction step
with its scratch file, and the persistence layer with explicit commit state.
-/

namespace BuildDb

/-- Python whitespace (`str.strip`, regex `\s`): the ASCII/Latin-1 fragment plus
the two Unicode line separators.  (The exotic U+2000-range spaces are omitted;
all inputs considered in this development stay inside this fragment.) -/
def isPySpace (c : Char) : Bool :=
  c = ' ' || c = '\t' || c = '\n' || c = '\r' ||
  c = Char.ofNat 0x0b || c = Char.ofNat 0x0c ||
  c = Char.ofNat 0x1c || c = Char.ofNat 0x1d || c = Char.ofNat 0x1e ||
  c = Char.ofNat 0x1f || c = Char.ofNat 0x85 || c = Char.ofNat 0xa0 ||
  c = Char.ofNat 0x2028 || c = Char.ofNat 0x2029

/-- Python `\w` word character (ASCII fragment): letters, digits, underscore. -/
def isWordChar (c : Char) : Bool :=
  c.isAlphanum || c = '_'

/-- Line-break characters recognised by Python `str.splitlines`
(U+1F and U+A0 are whitespace but not line breaks). -/
def isLineBreak (c : Char) : Bool :=
  c = '\n' || c = '\r' ||
  c = Char.ofNat 0x0b || c = Char.ofNat 0x0c ||
  c = Char.ofNat 0x1c || c = Char.ofNat 0x1d || c = Char.ofNat 0x1e ||
  c = Char.ofNat 0x85 || c = Char.ofNat 0x2028 || c = Char.ofNat 0x2029

/-- Code-point lexicographic order on char lists: how Python compares `str`
(and hence how `sorted` orders `Path` objects of one directory). -/
def lexLe : List Char → List Char → Bool
  | [], _ => true
  | _ :: _, [] => false
  | a :: as, b :: bs => if a < b then true else if a = b then lexLe as bs else false

/-- Single-quote character, to assemble the Portuguese messages of the source. -/
def sq : String := String.singleton (Char.ofNat 39)

/-- Mirrors the exception hierarchy of `build_db.py`: `BuildDbError` is the
base class, `PdfTextExtractionError` its subclass; the constructor records
which class was raised (the "error kind") and the message it carried. -/
inductive BuildDbError where
  | buildDbErr (msg : String)
  | pdfTextExtractionErr (msg : String)
deriving DecidableEq, Repr

/-- The exception class ("kind") of a raised error, forgetting the message. -/
inductive ErrKind where
  | base
  | pdfTextExtraction
deriving DecidableEq, Repr

def BuildDbError.kind : BuildDbError → ErrKind
  | .buildDbErr _ => .base
  | .pdfTextExtractionErr _ => .pdfTextExtraction

def BuildDbError.message : BuildDbError → String
  | .buildDbErr m => m
  | .pdfTextExtractionErr m => m

/-- Message raised when the `pdftotext` executable is missing. -/
def msgPdftotextMissing : String :=
  "O utilitário " ++ sq ++ "pdftotext" ++ sq ++ " não está disponível no sistema."

/-- Message raised when `pdftotext` exits non-zero (`exc.stderr!r` interpolated). -/
def msgConvertFailed (fileName stderrRepr : String) : String :=
  "Falha ao converter " ++ sq ++ fileName ++ sq ++ " para texto: " ++ stderrRepr

/-- `repr` of a Python `bytes` object, for diagnostic content without quotes,
backslashes or non-printable bytes. -/
def bytesRepr (s : String) : String := "b" ++ sq ++ s ++ sq

/-- Message raised when the process number cannot be found in the text. -/
def msgNoCaseNumber : String :=
  "Não foi possível identificar o número do processo no documento."

/-- Message of the defensive re-query failure in `_get_process_id`. -/
def msgNoProcessId : String := "Falha ao obter o ID do processo recém-criado."

/-! ### The case-number regex

`PROCESS_NUMBER_RE = \b\d{7}-\d{2}\.\d{4}\.\d\.\d{2}\.\d{4}\b`, used with
`.search` (leftmost match).  The body has fixed width, so matching needs no
backtracking; the two `\b` assertions are checked against the character before
the match and the character after it. -/

/-- Consume exactly `n` ASCII digits. -/
def takeDigits : Nat → List Char → Option (List Char × List Char)
  | 0, l => some ([], l)
  | _ + 1, [] => none
  | n + 1, c :: l =>
    if c.isDigit then (takeDigits n l).map (fun p => (c :: p.1, p.2)) else none

/-- Consume one literal character. -/
def takeLit (ch : Char) : List Char → Option (List Char)
  | [] => none
  | c :: l => if c = ch then some l else none

/-- Match the fixed-width body `\d{7}-\d{2}\.\d{4}\.\d\.\d{2}\.\d{4}` at the
head of the list, returning the matched characters and the rest. -/
def matchCaseBody (l : List Char) : Option (List Char × List Char) := do
  let (d1, l) ← takeDigits 7 l
  let l ← takeLit '-' l
  let (d2, l) ← takeDigits 2 l
  let l ← takeLit '.' l
  let (d3, l) ← takeDigits 4 l
  let l ← takeLit '.' l
  let (d4, l) ← takeDigits 1 l
  let l ← takeLit '.' l
  let (d5, l) ← takeDigits 2 l
  let l ← takeLit '.' l
  let (d6, l) ← takeDigits 4 l
  pure (d1 ++ '-' :: d2 ++ '.' :: d3 ++ '.' :: d4 ++ '.' :: d5 ++ '.' :: d6, l)

/-- Attempt `PROCESS_NUMBER_RE` at one position; `prev` is the character just
before that position (`none` at the start of the text).  The first matched
character is a digit (a word character), so the leading `\b` holds iff `prev`
is absent or not a word character; dually for the trailing `\b`. -/
def caseMatchAt (prev : Option Char) (l : List Char) : Option String :=
  if (match prev with | none => true | some c => !isWordChar c) then
    match matchCaseBody l with
    | some (m, rest) =>
      if (match rest with | [] => true | c :: _ => !isWordChar c) then
        some (String.mk m)
      else none
    | none => none
  else none

/-- `PROCESS_NUMBER_RE.search`: scan start positions left to right, return the
first (leftmost) match. -/
def searchCase : Option Char → List Char → Option String
  | _, [] => none
  | prev, c :: l =>
    match caseMatchAt prev (c :: l) with
    | some s => some s
    | none => searchCase (some c) l

/-- `_parse_case_number`: first `PROCESS_NUMBER_RE` match of the text, or the
`BuildDbError` the source raises when there is none. -/
def _parse_case_number (text : String) : Except BuildDbError String :=
  match searchCase none text.toList with
  | some s => .ok s
  | none => .error (.buildDbErr msgNoCaseNumber)

/-! ### The movement regexes

`MOVEMENT_RE = ^(?P<date>\d{2}/\d{2}/\d{4})\s+-\s+(?P<description>.+)$` with
`re.MULTILINE`, and the fallback `^(\d{2}/\d{2}/\d{4})\s+(.*)$`, both used with
`finditer`.  `re.MULTILINE` makes `^` match at the start and after each `'\n'`
and `$` at the end and before each `'\n'`; `\s` still matches `'\n'` itself, so
the separator whitespace may cross line breaks.  Backtracking collapses:
`\s+-` can only be a maximal whitespace run followed by `'-'` (a shorter run
would be followed by a whitespace character, never `'-'`), while `\s+(.+)$`
genuinely backtracks from the longest whitespace run.  `(.+)$` succeeds at a
position iff a non-`'\n'` character stands there, matching through the rest of
the line; `(.*)$` always succeeds, taking the rest of the line. -/

/-- Match `\d{2}/\d{2}/\d{4}` at the head of the list. -/
def takeDate (l : List Char) : Option (List Char × List Char) := do
  let (a, l) ← takeDigits 2 l
  let l ← takeLit '/' l
  let (b, l) ← takeDigits 2 l
  let l ← takeLit '/' l
  let (c, l) ← takeDigits 4 l
  pure (a ++ '/' :: b ++ '/' :: c, l)

/-- Consume a maximal non-empty run of `\s` characters. -/
def takeSpaces1 (l : List Char) : Option (List Char × List Char) :=
  match l with
  | [] => none
  | c :: rest =>
    if isPySpace c then
      some (c :: rest.takeWhile isPySpace, rest.dropWhile isPySpace)
    else none

/-- Match `(.+)$` at the head: requires a non-`'\n'` character and captures the
rest of the line; the remainder starts at the `'\n'` (or is empty). -/
def takeDesc (l : List Char) : Option (List Char × List Char) :=
  match l with
  | [] => none
  | c :: rest =>
    if c = '\n' then none
    else some ((c :: rest).takeWhile (fun x => x != '\n'),
               (c :: rest).dropWhile (fun x => x != '\n'))

/-- Match `\s*(.+)$` at the head with greedy backtracking over the `\s*` part:
prefer consuming further whitespace, fall back to starting the description
here.  (Used after one whitespace character has already been consumed, so the
whole `\s+(.+)$` requirement is met by the caller.) -/
def descAfterSpaces : List Char → Option (List Char × List Char)
  | [] => none
  | c :: rest =>
    if isPySpace c then
      match descAfterSpaces rest with
      | some res => some res
      | none => takeDesc (c :: rest)
    else takeDesc (c :: rest)

/-- Match `\s+-\s+(.+)$` at the head of the list. -/
def matchTailDash (l : List Char) : Option (List Char × List Char) := do
  let (_, l) ← takeSpaces1 l
  let l ← takeLit '-' l
  match l with
  | [] => none
  | c :: rest => if isPySpace c then descAfterSpaces rest else none

/-- Attempt `MOVEMENT_RE` at one (line-start) position. -/
def matchMovementAt (l : List Char) : Option (String × String × List Char) := do
  let (d, l) ← takeDate l
  let (desc, rest) ← matchTailDash l
  pure (String.mk d, String.mk desc, rest)

/-- Attempt the fallback pattern `^(\d{2}/\d{2}/\d{4})\s+(.*)$` at one
(line-start) position. -/
def matchFallbackAt (l : List Char) : Option (String × String × List Char) := do
  let (d, l) ← takeDate l
  let (_, l) ← takeSpaces1 l
  pure (String.mk d, String.mk (l.takeWhile (fun x => x != '\n')),
        l.dropWhile (fun x => x != '\n'))

lemma length_dropWhile_le (p : Char → Bool) :
    ∀ l : List Char, (l.dropWhile p).length ≤ l.length := by
  intro l
  induction l with
  | nil => simp
  | cons c rest ih =>
    by_cases h : p c = true
    · simpa [List.dropWhile, h] using Nat.le_succ_of_le ih
    · simp [List.dropWhile, h]

lemma takeDigits_le :
    ∀ (n : Nat) (l d r : _), takeDigits n l = some (d, r) → r.length ≤ l.length := by
  intro n
  induction n with
  | zero =>
    intro l d r h
    simp only [takeDigits, Option.some.injEq, Prod.mk.injEq] at h
    exact le_of_eq (by rw [h.2])
  | succ n ih =>
    intro l d r h
    cases l with
    | nil => simp [takeDigits] at h
    | cons c rest =>
      simp only [takeDigits] at h
      by_cases hc : c.isDigit = true
      · rw [if_pos hc] at h
        cases hr : takeDigits n rest with
        | none => simp [hr] at h
        | some p =>
          rw [hr] at h
          simp only [Option.map_some', Option.some.injEq, Prod.mk.injEq] at h
          have := ih rest p.1 p.2 hr
          rw [← h.2]
          exact Nat.le_succ_of_le this
      · rw [if_neg hc] at h
        exact absurd h (by simp)

lemma takeLit_lt (ch : Char) (l r : List Char) :
    takeLit ch l = some r → r.length < l.length := by
  intro h
  cases l with
  | nil => simp [takeLit] at h
  | cons c rest =>
    simp only [takeLit] at h
    by_cases hc : c = ch
    · rw [if_pos hc] at h
      simp only [Option.some.injEq] at h
      simp [← h]
    · rw [if_neg hc] at h
      exact absurd h (by simp)

lemma takeDate_lt (l d r : List Char) :
    takeDate l = some (d, r) → r.length < l.length := by
  intro h
  simp only [takeDate, bind, Option.bind_eq_some, Option.pure_def,
    Option.some.injEq, Prod.mk.injEq] at h
  obtain ⟨⟨a1, l1⟩, h1, ⟨l2, h2, ⟨⟨a3, l3⟩, h3, ⟨l4, h4, ⟨⟨a5, l5⟩, h5, h0⟩⟩⟩⟩⟩ := h
  have e1 := takeDigits_le 2 l a1 l1 h1
  have e2 := takeLit_lt '/' l1 l2 h2
  have e3 := takeDigits_le 2 l2 a3 l3 h3
  have e4 := takeLit_lt '/' l3 l4 h4
  have e5 := takeDigits_le 4 l4 a5 l5 h5
  have e0 : r.length = l5.length := by rw [← h0.2]
  omega

lemma takeSpaces1_lt (l sp r : List Char) :
    takeSpaces1 l = some (sp, r) → r.length < l.length := by
  intro h
  cases l with
  | nil => simp [takeSpaces1] at h
  | cons c rest =>
    simp only [takeSpaces1] at h
    by_cases hc : isPySpace c = true
    · rw [if_pos hc] at h
      simp only [Option.some.injEq, Prod.mk.injEq] at h
      rw [← h.2]
      exact Nat.lt_succ_of_le (length_dropWhile_le isPySpace rest)
    · rw [if_neg hc] at h
      exact absurd h (by simp)

lemma takeDesc_le (l d r : List Char) :
    takeDesc l = some (d, r) → r.length ≤ l.length := by
  intro h
  cases l with
  | nil => simp [takeDesc] at h
  | cons c rest =>
    simp only [takeDesc] at h
    by_cases hc : c = '\n'
    · rw [if_pos hc] at h; exact absurd h (by simp)
    · rw [if_neg hc] at h
      simp only [Option.some.injEq, Prod.mk.injEq] at h
      rw [← h.2]
      exact length_dropWhile_le _ _

lemma descAfterSpaces_le :
    ∀ (l d r : List Char), descAfterSpaces l = some (d, r) → r.length ≤ l.length := by
  intro l
  induction l with
  | nil => intro d r h; simp [descAfterSpaces] at h
  | cons c rest ih =>
    intro d r h
    simp only [descAfterSpaces] at h
    by_cases hc : isPySpace c = true
    · rw [if_pos hc] at h
      cases hi : descAfterSpaces rest with
      | some res =>
        rw [hi] at h
        obtain ⟨res1, res2⟩ := res
        simp only [Option.some.injEq, Prod.mk.injEq] at h
        have := ih res1 res2 hi
        rw [← h.2]
        exact Nat.le_succ_of_le this
      | none =>
        rw [hi] at h
        exact takeDesc_le _ d r h
    · rw [if_neg hc] at h
      exact takeDesc_le _ d r h

lemma matchTailDash_le (l d r : List Char) :
    matchTailDash l = some (d, r) → r.length ≤ l.length := by
  intro h
  simp only [matchTailDash, bind, Option.bind_eq_some] at h
  obtain ⟨⟨sp, l1⟩, h1, ⟨l2, h2, h0⟩⟩ := h
  have e1 : l1.length < l.length := takeSpaces1_lt l sp l1 h1
  have e2 : l2.length < l1.length := takeLit_lt '-' l1 l2 h2
  cases l2 with
  | nil =>
    have h0' : (none : Option (List Char × List Char)) = some (d, r) := h0
    exact absurd h0' (by simp)
  | cons c rest =>
    have h0' : (if isPySpace c = true then descAfterSpaces rest else none) =
        some (d, r) := h0
    simp only [List.length_cons] at e2
    by_cases hc : isPySpace c = true
    · rw [if_pos hc] at h0'
      have e0 := descAfterSpaces_le rest d r h0'
      omega
    · rw [if_neg hc] at h0'
      exact absurd h0' (by simp)

lemma matchMovementAt_lt (l : List Char) (d desc : String) (r : List Char) :
    matchMovementAt l = some (d, desc, r) → r.length < l.length := by
  intro h
  simp only [matchMovementAt, bind, Option.bind_eq_some, Option.pure_def,
    Option.some.injEq, Prod.mk.injEq] at h
  obtain ⟨⟨d1, l1⟩, h1, ⟨⟨desc2, rest2⟩, h2, h0⟩⟩ := h
  have e1 : l1.length < l.length := takeDate_lt l d1 l1 h1
  have e2 : rest2.length ≤ l1.length := matchTailDash_le l1 desc2 rest2 h2
  have e0 : r.length = rest2.length := by rw [← h0.2.2]
  omega

lemma matchFallbackAt_lt (l : List Char) (d desc : String) (r : List Char) :
    matchFallbackAt l = some (d, desc, r) → r.length < l.length := by
  intro h
  simp only [matchFallbackAt, bind, Option.bind_eq_some, Option.pure_def,
    Option.some.injEq, Prod.mk.injEq] at h
  obtain ⟨⟨d1, l1⟩, h1, ⟨⟨sp, l2⟩, h2, h0⟩⟩ := h
  have e1 : l1.length < l.length := takeDate_lt l d1 l1 h1
  have e2 : l2.length < l1.length := takeSpaces1_lt l1 sp l2 h2
  have e0 : r.length ≤ l2.length := by
    rw [← h0.2.2]; exact length_dropWhile_le _ _
  omega

/-- `MOVEMENT_RE.finditer`: scan positions left to right; `atStart` records
whether the current position is a line start (text start or just after `'\n'`),
where alone `^` lets a match begin.  After a match, scanning resumes at its
end.  The scan advances at least one character per step (a match consumes at
least the ten date characters, cf. `matchMovementAt_lt`), so the `fuel`
parameter, always called with `length + 1`, never runs out before the text
does; it only makes the recursion structural. -/
def scanMovements (fuel : Nat) (atStart : Bool) (l : List Char) :
    List (String × String) :=
  match fuel with
  | 0 => []
  | fuel + 1 =>
    match l with
    | [] => []
    | c :: l' =>
      if atStart then
        match matchMovementAt (c :: l') with
        | some (d, desc, rest) => (d, desc) :: scanMovements fuel false rest
        | none => scanMovements fuel (c = '\n') l'
      else scanMovements fuel (c = '\n') l'

/-- `finditer` for the fallback pattern; same fuel discipline
(cf. `matchFallbackAt_lt`). -/
def scanFallback (fuel : Nat) (atStart : Bool) (l : List Char) :
    List (String × String) :=
  match fuel with
  | 0 => []
  | fuel + 1 =>
    match l with
    | [] => []
    | c :: l' =>
      if atStart then
        match matchFallbackAt (c :: l') with
        | some (d, desc, rest) => (d, desc) :: scanFallback fuel false rest
        | none => scanFallback fuel (c = '\n') l'
      else scanFallback fuel (c = '\n') l'

/-- Any fuel beyond the text length gives the same scan: the fuel is a device
for structural recursion, not part of the modelled semantics. -/
lemma scanMovements_fuel :
    ∀ (fuel fuel' : Nat) (atStart : Bool) (l : List Char),
      l.length < fuel → l.length < fuel' →
      scanMovements fuel atStart l = scanMovements fuel' atStart l := by
  intro fuel
  induction fuel with
  | zero => intro fuel' atStart l h; omega
  | succ fuel ih =>
    intro fuel' atStart l h h'
    cases fuel' with
    | zero => omega
    | succ fuel' =>
      cases l with
      | nil => simp [scanMovements]
      | cons c l0 =>
        simp only [scanMovements]
        by_cases ha : atStart
        · rw [if_pos ha, if_pos ha]
          cases hm : matchMovementAt (c :: l0) with
          | some res =>
            obtain ⟨d, desc, rest⟩ := res
            have hlt := matchMovementAt_lt _ _ _ _ hm
            simp only [List.length_cons] at hlt h h'
            show (d, desc) :: scanMovements fuel false rest =
              (d, desc) :: scanMovements fuel' false rest
            rw [ih fuel' false rest (by omega) (by omega)]
          | none =>
            simp only [List.length_cons] at h h'
            rw [ih fuel' (c = '\n') l0 (by omega) (by omega)]
        · rw [if_neg ha, if_neg ha]
          simp only [List.length_cons] at h h'
          rw [ih fuel' (c = '\n') l0 (by omega) (by omega)]

/-- Fuel adequacy for the fallback scan. -/
lemma scanFallback_fuel :
    ∀ (fuel fuel' : Nat) (atStart : Bool) (l : List Char),
      l.length < fuel → l.length < fuel' →
      scanFallback fuel atStart l = scanFallback fuel' atStart l := by
  intro fuel
  induction fuel with
  | zero => intro fuel' atStart l h; omega
  | succ fuel ih =>
    intro fuel' atStart l h h'
    cases fuel' with
    | zero => omega
    | succ fuel' =>
      cases l with
      | nil => simp [scanFallback]
      | cons c l0 =>
        simp only [scanFallback]
        by_cases ha : atStart
        · rw [if_pos ha, if_pos ha]
          cases hm : matchFallbackAt (c :: l0) with
          | some res =>
            obtain ⟨d, desc, rest⟩ := res
            have hlt := matchFallbackAt_lt _ _ _ _ hm
            simp only [List.length_cons] at hlt h h'
            show (d, desc) :: scanFallback fuel false rest =
              (d, desc) :: scanFallback fuel' false rest
            rw [ih fuel' false rest (by omega) (by omega)]
          | none =>
            simp only [List.length_cons] at h h'
            rw [ih fuel' (c = '\n') l0 (by omega) (by omega)]
        · rw [if_neg ha, if_neg ha]
          simp only [List.length_cons] at h h'
          rw [ih fuel' (c = '\n') l0 (by omega) (by omega)]

/-- Python `str.strip()` over the modelled whitespace set. -/
def pyStrip (s : String) : String :=
  String.mk (((s.toList.dropWhile isPySpace).reverse.dropWhile isPySpace).reverse)

/-- The primary strategy of `_parse_events`: all `MOVEMENT_RE` matches with the
description stripped. -/
def primaryEvents (text : String) : List (String × String) :=
  (scanMovements (text.toList.length + 1) true text.toList).map
    (fun p => (p.1, pyStrip p.2))

/-- The fallback strategy of `_parse_events`: all fallback-pattern matches with
the trailing group stripped. -/
def fallbackEvents (text : String) : List (String × String) :=
  (scanFallback (text.toList.length + 1) true text.toList).map
    (fun p => (p.1, pyStrip p.2))

/-- `_parse_events`: the primary result if non-empty, otherwise the fallback. -/
def _parse_events (text : String) : List (String × String) :=
  let events := primaryEvents text
  if events.isEmpty then fallbackEvents text else events

/-! ### Title derivation -/

/-- Python `str.splitlines` on a char list. -/
def splitlinesList : List Char → List (List Char)
  | [] => []
  | '\r' :: '\n' :: l => [] :: splitlinesList l
  | c :: l =>
    if isLineBreak c then [] :: splitlinesList l
    else
      match splitlinesList l with
      | [] => [c] :: []
      | line :: rest => (c :: line) :: rest

/-- Python `str.splitlines`. -/
def pySplitlines (s : String) : List String :=
  (splitlinesList s.toList).map String.mk

/-- The `for` loop of `_derive_title`: first line whose stripped form is
non-empty, truncated to 200 characters. -/
def deriveTitleFromLines : List String → String
  | [] => "Processo sem título"
  | line :: rest =>
    let cleaned := pyStrip line
    if cleaned.isEmpty then deriveTitleFromLines rest else cleaned.take 200

/-- `_derive_title`. -/
def _derive_title (text : String) : String :=
  deriveTitleFromLines (pySplitlines text)

/-! ### Text extraction (`extract_text_from_pdf`)

The converter invocation `subprocess.run(["pdftotext", pdf, dest], check=True,
capture_output=True)` has three outcomes, modelled by `ConverterOutcome`:
the executable is missing (`FileNotFoundError`, raised before any scratch file
exists), a non-zero exit (`CalledProcessError`; the converter may or may not
have written a partial scratch file, recorded by `wroteFile`), or success
(the scratch file holds the text).  `ExtractState.scratchExists` tracks whether
the scratch file is still on disk when the call returns. -/

inductive ConverterOutcome where
  | toolMissing
  | exitNonZero (stderr : String) (wroteFile : Bool)
  | success (text : String)
deriving DecidableEq, Repr

structure ExtractState where
  result : Except BuildDbError String
  scratchExists : Bool
deriving Repr

/-- `extract_text_from_pdf`: on success the destination is read with
`errors="ignore"` (modelled as the text the converter produced) and then
unlinked; the two `except` arms re-raise as `PdfTextExtractionError` and reach
no unlink statement. -/
def extract_text_from_pdf (pdfName : String) (converter : ConverterOutcome) :
    ExtractState :=
  match converter with
  | .toolMissing =>
    ⟨.error (.pdfTextExtractionErr msgPdftotextMissing), false⟩
  | .exitNonZero stderr wroteFile =>
    ⟨.error (.pdfTextExtractionErr (msgConvertFailed pdfName (bytesRepr stderr))),
     wroteFile⟩
  | .success text => ⟨.ok text, false⟩

/-! ### Pipeline (`process_pdf`, `_iter_pdf_files`, `load_pdf_results`) -/

/-- A `pathlib.Path` of the forms the pipeline builds: a parent directory and a
final component. -/
structure PyPath where
  dir : String
  name : String
deriving DecidableEq, Repr

/-- `str(path)`. -/
def PyPath.toStr (p : PyPath) : String := p.dir ++ "/" ++ p.name

/-- `PdfImportResult`. -/
structure PdfImportResult where
  process_number : String
  title : String
  events : List (String × String)
  document_text : String
  stored_path : PyPath
deriving DecidableEq, Repr

/-- `PdfImportResult.to_document_record`. -/
def PdfImportResult.to_document_record (r : PdfImportResult) :
    String × String × String :=
  (r.process_number, r.stored_path.name, r.document_text)

/-- `process_pdf`: copy the source into the storage directory (a pure file
copy, skipped when source and target coincide; not part of the modelled
state), extract the text (the converter outcome is an environment keyed by the
file name; the scratch path `temp_dir/stem.txt` plays no further role), then
parse.  Any raised error propagates. -/
def process_pdf (converter : String → ConverterOutcome) (storage_dir : String)
    (pdf_path : PyPath) : Except BuildDbError PdfImportResult :=
  let target_path : PyPath := ⟨storage_dir, pdf_path.name⟩
  match (extract_text_from_pdf target_path.name (converter pdf_path.name)).result with
  | .error e => .error e
  | .ok text_content =>
    match _parse_case_number text_content with
    | .error e => .error e
    | .ok process_number =>
      let events := _parse_events text_content
      let title := _derive_title text_content
      .ok ⟨process_number, title, events, text_content, target_path⟩

/-- One entry of the source directory: its final name and whether it is a
regular file. -/
structure DirEntry where
  name : String
  isFile : Bool
deriving DecidableEq, Repr

/-- `fnmatch` of a name against the (case-sensitive) glob pattern `*.pdf`:
`*` matches any sequence of characters, so the name must end in `.pdf`.
(CPython `pathlib.Path.glob` does not exempt dot-files.) -/
def globMatchPdf (name : String) : Bool :=
  List.isSuffixOf ".pdf".toList name.toList

/-- `sorted` on `Path` objects of one directory compares their final names by
code points. -/
def entryLe (a b : DirEntry) : Prop := lexLe a.name.toList b.name.toList = true

instance : DecidableRel entryLe := fun a b =>
  decEq (lexLe a.name.toList b.name.toList) true

/-- `_iter_pdf_files`: `sorted(directory.glob("*.pdf"))`, keeping only entries
for which `path.is_file()` holds. -/
def _iter_pdf_files (entries : List DirEntry) : List DirEntry :=
  (List.insertionSort entryLe
      (entries.filter (fun e => globMatchPdf e.name))).filter
    (fun e => e.isFile)

/-- The accumulation loop of `load_pdf_results` over the already-selected
files: the first raised error aborts, discarding every accumulated result. -/
def loadLoop (converter : String → ConverterOutcome) (pdf_dir storage_dir : String) :
    List DirEntry → Except BuildDbError (List PdfImportResult)
  | [] => .ok []
  | e :: rest =>
    match process_pdf converter storage_dir ⟨pdf_dir, e.name⟩ with
    | .error err => .error err
    | .ok r =>
      match loadLoop converter pdf_dir storage_dir rest with
      | .error err => .error err
      | .ok rs => .ok (r :: rs)

/-- `load_pdf_results`. -/
def load_pdf_results (converter : String → ConverterOutcome) (pdf_dir : String)
    (entries : List DirEntry) (storage_dir : String) :
    Except BuildDbError (List PdfImportResult) :=
  loadLoop converter pdf_dir storage_dir (_iter_pdf_files entries)

/-! ### The SQLite schema and connection

Rows mirror the columns of `ensure_schema`; `AUTOINCREMENT` ids are modelled
by per-table counters that start at 1 and only grow.  (The `appointments`
table is created by `ensure_schema` but never written by this module, so it is
not part of the state.)  A `Conn` is an open `sqlite3` connection: `pending`
is what the connection sees inside the current implicit transaction,
`committed` is what the database file holds; `connection.commit()` publishes
`pending`, and closing a connection without committing discards `pending`. -/

structure ProcessRow where
  id : Nat
  number : String
  title : String
  pdf_path : String
  created_at : String
deriving DecidableEq, Repr

structure EventRow where
  id : Nat
  process_id : Nat
  event_date : String
  description : String
deriving DecidableEq, Repr

structure DocumentRow where
  id : Nat
  process_id : Nat
  file_name : String
  content : String
  created_at : String
deriving DecidableEq, Repr

structure DBState where
  processes : List ProcessRow
  events : List EventRow
  documents : List DocumentRow
  nextProcessId : Nat
  nextEventId : Nat
  nextDocumentId : Nat
deriving DecidableEq, Repr

def DBState.empty : DBState := ⟨[], [], [], 1, 1, 1⟩

structure Conn where
  pending : DBState
  committed : DBState
deriving DecidableEq, Repr

def Conn.commit (c : Conn) : Conn := ⟨c.pending, c.pending⟩

/-- `sqlite3.connect(database_path)`. -/
def connect (db : DBState) : Conn := ⟨db, db⟩

/-- `ensure_schema`: `CREATE TABLE IF NOT EXISTS ...` is a no-op on the
modelled state (the schema is implicit in `DBState`), followed by the
`connection.commit()` the source performs. -/
def ensure_schema (c : Conn) : Conn := c.commit

/-- The upsert statement of `_get_process_id`:
`INSERT ... ON CONFLICT(number) DO UPDATE SET title = excluded.title,
pdf_path = excluded.pdf_path`.  On conflict with the `UNIQUE` column `number`
the conflicting row keeps its `id` and `created_at` and takes the new `title`
and `pdf_path`; otherwise a fresh row is appended with the next
`AUTOINCREMENT` id.  `updRow` is the row transformation of the `DO UPDATE`
arm. -/
def updRow (number title pdf_path : String) (row : ProcessRow) : ProcessRow :=
  if row.number = number then { row with title := title, pdf_path := pdf_path }
  else row

def upsertProcess (db : DBState) (number title pdf_path created_at : String) :
    DBState :=
  if db.processes.any (fun row => decide (row.number = number)) then
    { db with processes := db.processes.map (updRow number title pdf_path) }
  else
    { db with
      processes :=
        db.processes ++ [⟨db.nextProcessId, number, title, pdf_path, created_at⟩],
      nextProcessId := db.nextProcessId + 1 }

/-- `SELECT id FROM processes WHERE number = ?` followed by `fetchone()`:
the first matching row in rowid order. -/
def findProcess (db : DBState) (number : String) : Option ProcessRow :=
  db.processes.find? (fun row => decide (row.number = number))

/-- `_get_process_id`: execute the upsert, `connection.commit()` (after which
pending and committed coincide on the upserted state), re-query the id with
`SELECT ... WHERE number = ?`; the `row is None` arm raises the defensive
`BuildDbError`. -/
def _get_process_id (conn : Conn) (process_number title : String)
    (pdf_path : PyPath) (now : String) : Conn × Except BuildDbError Nat :=
  match findProcess (upsertProcess conn.pending process_number title pdf_path.toStr now)
      process_number with
  | some row =>
    (Conn.commit
      { conn with
        pending := upsertProcess conn.pending process_number title pdf_path.toStr now },
     .ok row.id)
  | none =>
    (Conn.commit
      { conn with
        pending := upsertProcess conn.pending process_number title pdf_path.toStr now },
     .error (.buildDbErr msgNoProcessId))

/-- `cursor.executemany("INSERT INTO events ...")`: append one row per
`(event_date, description)` pair, in order, with ascending fresh ids. -/
def insertEvents (process_id : Nat) : DBState → List (String × String) → DBState
  | db, [] => db
  | db, (event_date, description) :: rest =>
    insertEvents process_id
      { db with
        events := db.events ++ [⟨db.nextEventId, process_id, event_date, description⟩],
        nextEventId := db.nextEventId + 1 }
      rest

/-- `INSERT INTO documents ...`: append the single document row. -/
def insertDocument (db : DBState) (process_id : Nat)
    (file_name content created_at : String) : DBState :=
  { db with
    documents :=
      db.documents ++ [⟨db.nextDocumentId, process_id, file_name, content, created_at⟩],
    nextDocumentId := db.nextDocumentId + 1 }

/-- The loop body of `persist_import_results` for one `PdfImportResult`:
resolve the process id (committing the upsert), delete that process's events
and documents, insert the new ones, commit.  (`datetime.utcnow().isoformat()`
is modelled by the `now` parameter.) -/
def persistResult (conn : Conn) (r : PdfImportResult) (now : String) :
    Conn × Option BuildDbError :=
  match _get_process_id conn r.process_number r.title r.stored_path now with
  | (conn1, .error e) => (conn1, some e)
  | (conn1, .ok process_id) =>
    let db := conn1.pending
    let db :=
      { db with
        events := db.events.filter (fun ev => decide (ev.process_id ≠ process_id)),
        documents :=
          db.documents.filter (fun doc => decide (doc.process_id ≠ process_id)) }
    let db := insertEvents process_id db r.events
    let db := insertDocument db process_id r.stored_path.name r.document_text now
    (Conn.commit { conn1 with pending := db }, none)

/-- `persist_import_results`: the `for` loop; a raised error aborts the loop,
leaving the connection as it was at the raise. -/
def persist_import_results (conn : Conn) (results : List PdfImportResult)
    (now : String) : Conn × Option BuildDbError :=
  match results with
  | [] => (conn, none)
  | r :: rest =>
    match persistResult conn r now with
    | (conn1, none) => persist_import_results conn1 rest now
    | (conn1, some e) => (conn1, some e)

/-- `build_database`: run the whole pipeline, then connect, ensure the schema
and persist.  A load failure is raised before `sqlite3.connect`, so the
database file (`db0`) is untouched; `connection.close()` in the `finally`
block discards any uncommitted changes, so the file afterwards holds the
committed snapshot. -/
def build_database (converter : String → ConverterOutcome) (source_dir : String)
    (entries : List DirEntry) (db_parent : String) (db0 : DBState)
    (now : String) : DBState × Option BuildDbError :=
  match load_pdf_results converter source_dir entries (db_parent ++ "/pdfs") with
  | .error e => (db0, some e)
  | .ok results =>
    match persist_import_results (ensure_schema (connect db0)) results now with
    | (connEnd, none) => (connEnd.committed, none)
    | (connEnd, some e) => (connEnd.committed, some e)

/-- Hypothetical persistence failure for one result, used to examine the
commit discipline: the unit of work raises anywhere after the upsert commit
inside `_get_process_id` and before the final `connection.commit()` of the
loop body (the source contains no other commit between them).  The returned
connection holds the upsert as committed; its pending deletes/inserts are
discarded when the connection closes without committing. -/
def persistResultFailing (conn : Conn) (r : PdfImportResult) (now : String) :
    Conn :=
  (_get_process_id conn r.process_number r.title r.stored_path now).1

/-! ### Spec-side definitions

The definitions below follow the wording of the specification and the claims
(not the source); the theorems compare them with the source-translated
definitions above. -/

/-- Spec wording for the title: "the first non-blank line of the text,
trimmed, truncated to 200 characters; if no non-blank line exists, use a fixed
placeholder title". -/
def titleSpec (text : String) : String :=
  match ((pySplitlines text).map pyStrip).filter (fun s => !s.isEmpty) with
  | [] => "Processo sem título"
  | c :: _ => c.take 200

/-- Claim wording (C3): a *line* matching the dash form
`DD/MM/YYYY - description`, i.e. the whole line is date, whitespace, dash,
whitespace, description. -/
def specDashLinePair (line : String) : Option (String × String) :=
  match matchMovementAt line.toList with
  | some (d, desc, rest) => if rest.isEmpty then some (d, pyStrip desc) else none
  | none => none

/-- Claim wording (C3): a *line* of the bare-date form
`DD/MM/YYYY <whitespace><description>`. -/
def specFallbackLinePair (line : String) : Option (String × String) :=
  match matchFallbackAt line.toList with
  | some (d, desc, rest) => if rest.isEmpty then some (d, pyStrip desc) else none
  | none => none

/-- Claim wording (C3): the pairs of all dash-form lines, in line order. -/
def specPrimaryLines (text : String) : List (String × String) :=
  (pySplitlines text).filterMap specDashLinePair

/-- Claim wording (C3): dash-form lines; if none, bare-date lines. -/
def specParseEventsLines (text : String) : List (String × String) :=
  let p := specPrimaryLines text
  if p.isEmpty then (pySplitlines text).filterMap specFallbackLinePair else p

/-- Claim wording (C4): the first *substring* matching the canonical
case-number pattern (no word-boundary requirement). -/
def specSearchCanonical : List Char → Option String
  | [] => none
  | c :: l =>
    match matchCaseBody (c :: l) with
    | some (m, _) => some (String.mk m)
    | none => specSearchCanonical l

/-- The `i`-th element of a char list, if any. -/
def nthChar : List Char → Nat → Option Char
  | [], _ => none
  | c :: _, 0 => some c
  | _ :: l, j + 1 => nthChar l j

/-- `PROCESS_NUMBER_RE` attempted at position `i` of the text: the character
before position `i` (if any) and the suffix from `i` feed `caseMatchAt`. -/
def bMatchAt (prev : Option Char) (l : List Char) (i : Nat) : Option String :=
  caseMatchAt (match i with | 0 => prev | j + 1 => nthChar l j) (l.drop i)

/-- The least position carrying a `PROCESS_NUMBER_RE` match, with its match
(spec wording "first", as a position index). -/
def firstBoundaryIdx (prev : Option Char) : List Char → Option (Nat × String)
  | [] => none
  | c :: l =>
    match caseMatchAt prev (c :: l) with
    | some s => some (0, s)
    | none => (firstBoundaryIdx (some c) l).map (fun p => (p.1 + 1, p.2))

/-- The schema invariant maintained by the `UNIQUE` constraint on
`processes.number`: no two rows share a case number. -/
def WFdb (db : DBState) : Prop :=
  db.processes.Pairwise (fun a b => a.number ≠ b.number)

/-- The event rows `executemany` produces for one process: consecutive ids
from `k`, all owned by `pid`, pairs in order. -/
def eventRowsFrom (pid k : Nat) : List (String × String) → List EventRow
  | [] => []
  | (date, desc) :: rest => ⟨k, pid, date, desc⟩ :: eventRowsFrom pid (k + 1) rest

end BuildDb

open BuildDb

/-! ## Claim theorems -/

lemma deriveTitle_eq_spec_lines (ls : List String) :
    deriveTitleFromLines ls =
      match (ls.map pyStrip).filter (fun s => !s.isEmpty) with
      | [] => "Processo sem título"
      | c :: _ => c.take 200 := by
  induction ls with
  | nil => rfl
  | cons line rest ih =>
    simp only [deriveTitleFromLines, List.map_cons, List.filter_cons]
    by_cases h : (pyStrip line).isEmpty
    · simp [h, ih]
    · simp [h]

/-- C9: for every input text, the derived title is the first line that is
non-blank after trimming, trimmed and truncated to at most 200 characters; if
no non-blank line exists the title is the fixed placeholder.  In particular
`"\n\nHello World\nMore text"` yields `"Hello World"` and an all-blank text
yields the placeholder. -/
theorem derive_title_spec :
    (∀ text, _derive_title text = titleSpec text) ∧
    _derive_title "\n\nHello World\nMore text" = "Hello World" ∧
    _derive_title " \n \t\n " = "Processo sem título" := by
  refine ⟨fun text => ?_, rfl, rfl⟩
  unfold _derive_title titleSpec
  exact deriveTitle_eq_spec_lines (pySplitlines text)

/-- C6 counterexample: the two extraction failure causes (converter missing /
converter non-zero exit) raise the *same* error kind,
`PdfTextExtractionError`; they are not observably distinguishable by error
kind, only by message.  The claimed distinct kinds do not exist in the code. -/
theorem extraction_error_kind_counterexample :
    (extract_text_from_pdf "a.pdf" ConverterOutcome.toolMissing).result =
      .error (.pdfTextExtractionErr msgPdftotextMissing) ∧
    (extract_text_from_pdf "a.pdf" (ConverterOutcome.exitNonZero "boom" false)).result =
      .error (.pdfTextExtractionErr (msgConvertFailed "a.pdf" (bytesRepr "boom"))) ∧
    BuildDbError.kind (.pdfTextExtractionErr msgPdftotextMissing) =
      BuildDbError.kind
        (.pdfTextExtractionErr (msgConvertFailed "a.pdf" (bytesRepr "boom"))) :=
  ⟨rfl, rfl, rfl⟩

lemma msgs_ne (f r : String) : msgPdftotextMissing ≠ msgConvertFailed f r := by
  intro h
  have h2 : msgPdftotextMissing.data.head? = (msgConvertFailed f r).data.head? := by
    rw [h]
  have hL : msgPdftotextMissing.data.head? = some 'O' := by
    simp only [msgPdftotextMissing, String.data_append]
    rfl
  have hR : (msgConvertFailed f r).data.head? = some 'F' := by
    simp only [msgConvertFailed, String.data_append]
    rfl
  rw [hL, hR] at h2
  exact absurd h2 (by decide)

/-- C6 amended: both failure causes raise the single error kind
`PdfTextExtractionError`; the converter-missing case carries the fixed
unavailable message while a non-zero exit carries a message with the file name
and the converter diagnostics, and the two messages always differ, so the
causes are distinguishable by message content, not by error kind. -/
theorem extraction_single_kind_distinct_messages (name stderr : String)
    (wrote : Bool) :
    (extract_text_from_pdf name ConverterOutcome.toolMissing).result =
      .error (.pdfTextExtractionErr msgPdftotextMissing) ∧
    (extract_text_from_pdf name (ConverterOutcome.exitNonZero stderr wrote)).result =
      .error (.pdfTextExtractionErr (msgConvertFailed name (bytesRepr stderr))) ∧
    msgPdftotextMissing ≠ msgConvertFailed name (bytesRepr stderr) :=
  ⟨rfl, rfl, msgs_ne name (bytesRepr stderr)⟩

/-- C7 counterexample: when the converter exits non-zero after writing a
(partial) scratch file, `extract_text_from_pdf` raises without deleting it —
the scratch file survives this exit path, against the claimed guaranteed
cleanup on every exit path. -/
theorem scratch_file_persists_counterexample :
    (extract_text_from_pdf "a.pdf" (ConverterOutcome.exitNonZero "boom" true)).result =
      .error (.pdfTextExtractionErr (msgConvertFailed "a.pdf" (bytesRepr "boom"))) ∧
    (extract_text_from_pdf "a.pdf"
        (ConverterOutcome.exitNonZero "boom" true)).scratchExists = true :=
  ⟨rfl, rfl⟩

/-- C7 amended: the scratch file is deleted on the success path only (after
its content is read).  On the converter-missing path no scratch file was ever
created; on a non-zero exit whatever the converter wrote persists past the
call. -/
theorem scratch_file_cleanup_success_only (name text stderr : String)
    (wrote : Bool) :
    (extract_text_from_pdf name (ConverterOutcome.success text)).scratchExists
        = false ∧
    (extract_text_from_pdf name ConverterOutcome.toolMissing).scratchExists
        = false ∧
    (extract_text_from_pdf name
        (ConverterOutcome.exitNonZero stderr wrote)).scratchExists = wrote :=
  ⟨rfl, rfl, rfl⟩

/-- C3 counterexample: on `"01/02/2023\n- x"` no single line matches the dash
form and no single line matches the bare-date form, so the claimed line-based
reading predicts no events; but `MOVEMENT_RE`'s `\s+` crosses the line break
(only `^` and `$` are line-anchored under `re.MULTILINE`), so `_parse_events`
returns the pair assembled from the two lines. -/
theorem parse_events_line_claim_counterexample :
    specParseEventsLines "01/02/2023\n- x" = [] ∧
    _parse_events "01/02/2023\n- x" = [("01/02/2023", "x")] :=
  ⟨rfl, rfl⟩

/-- C3 amended: event parsing returns the `(date, description)` pairs of the
dash pattern `DD/MM/YYYY - description` anchored at line starts, in match
order — where the whitespace around the dash may span line breaks, so a pair
can be assembled across adjacent lines; the bare-date fallback (same caveat)
is used if and only if the dash pattern yields zero matches, and never
supplements a non-empty primary result. -/
theorem parse_events_primary_fallback_exclusive (text : String) :
    (primaryEvents text ≠ [] ∧ _parse_events text = primaryEvents text) ∨
    (primaryEvents text = [] ∧ _parse_events text = fallbackEvents text) := by
  by_cases h : primaryEvents text = []
  · right
    refine ⟨h, ?_⟩
    unfold _parse_events
    rw [h]
    rfl
  · left
    refine ⟨h, ?_⟩
    have h2 : (primaryEvents text).isEmpty = false := by
      cases hp : primaryEvents text with
      | nil => exact absurd hp h
      | cons a l => rfl
    show (if (primaryEvents text).isEmpty = true then fallbackEvents text
      else primaryEvents text) = primaryEvents text
    rw [h2]
    rfl

/-- C4 counterexample: `"a1234567-89.0123.4.56.7890"` contains a substring
matching the canonical case-number pattern, but `PROCESS_NUMBER_RE`'s `\b`
rejects it (the preceding `a` is a word character), so `_parse_case_number`
raises instead of returning it. -/
theorem parse_case_number_substring_claim_counterexample :
    specSearchCanonical "a1234567-89.0123.4.56.7890".toList =
      some "1234567-89.0123.4.56.7890" ∧
    _parse_case_number "a1234567-89.0123.4.56.7890" =
      .error (.buildDbErr msgNoCaseNumber) :=
  ⟨rfl, rfl⟩

lemma matchCaseBody_nil : matchCaseBody ([] : List Char) = none := rfl

lemma caseMatchAt_nil (prev : Option Char) : caseMatchAt prev [] = none := by
  cases prev with
  | none => rfl
  | some c =>
    by_cases h : isWordChar c
    · simp [caseMatchAt, h]
    · simp [caseMatchAt, h, matchCaseBody_nil]

lemma bMatchAt_zero (prev : Option Char) (l : List Char) :
    bMatchAt prev l 0 = caseMatchAt prev l := rfl

lemma bMatchAt_cons_succ (prev : Option Char) (c : Char) (l : List Char)
    (i : Nat) : bMatchAt prev (c :: l) (i + 1) = bMatchAt (some c) l i := by
  cases i with
  | zero => rfl
  | succ j => rfl

lemma bMatchAt_nil (prev : Option Char) (i : Nat) : bMatchAt prev [] i = none := by
  unfold bMatchAt
  rw [List.drop_nil]
  exact caseMatchAt_nil _

lemma firstBoundaryIdx_spec :
    ∀ (l : List Char) (prev : Option Char),
      (∀ i s, firstBoundaryIdx prev l = some (i, s) →
        searchCase prev l = some s ∧ bMatchAt prev l i = some s ∧
        ∀ j, j < i → bMatchAt prev l j = none) ∧
      (firstBoundaryIdx prev l = none →
        searchCase prev l = none ∧ ∀ i, bMatchAt prev l i = none) := by
  intro l
  induction l with
  | nil =>
    intro prev
    constructor
    · intro i s h
      simp [firstBoundaryIdx] at h
    · intro _
      exact ⟨rfl, fun i => bMatchAt_nil prev i⟩
  | cons c l ih =>
    intro prev
    constructor
    · intro i s h
      simp only [firstBoundaryIdx] at h
      cases hm : caseMatchAt prev (c :: l) with
      | some s0 =>
        rw [hm] at h
        simp only [Option.some.injEq, Prod.mk.injEq] at h
        obtain ⟨hi, hs⟩ := h
        subst hi
        refine ⟨?_, ?_, ?_⟩
        · simp only [searchCase, hm, hs]
        · rw [bMatchAt_zero, hm, hs]
        · intro j hj
          exact absurd hj (Nat.not_lt_zero j)
      | none =>
        rw [hm] at h
        cases hf : firstBoundaryIdx (some c) l with
        | none =>
          rw [hf] at h
          simp at h
        | some p =>
          rw [hf] at h
          obtain ⟨i0, s0⟩ := p
          simp only [Option.map_some', Option.some.injEq, Prod.mk.injEq] at h
          obtain ⟨hi, hs⟩ := h
          have IH := (ih (some c)).1 i0 s0 hf
          refine ⟨?_, ?_, ?_⟩
          · simp only [searchCase, hm]
            rw [IH.1, hs]
          · rw [← hi, bMatchAt_cons_succ, ← hs]
            exact IH.2.1
          · intro j hj
            cases j with
            | zero =>
              rw [bMatchAt_zero]
              exact hm
            | succ j0 =>
              rw [bMatchAt_cons_succ]
              exact IH.2.2 j0 (by omega)
    · intro h
      simp only [firstBoundaryIdx] at h
      cases hm : caseMatchAt prev (c :: l) with
      | some s0 =>
        rw [hm] at h
        simp at h
      | none =>
        rw [hm] at h
        cases hf : firstBoundaryIdx (some c) l with
        | some p =>
          rw [hf] at h
          simp at h
        | none =>
          have IH := (ih (some c)).2 hf
          constructor
          · simp only [searchCase, hm]
            exact IH.1
          · intro i
            cases i with
            | zero =>
              rw [bMatchAt_zero]
              exact hm
            | succ j =>
              rw [bMatchAt_cons_succ]
              exact IH.2 j

/-- C4 amended: for every input text, case-number parsing returns the first
*word-boundary-delimited* substring matching the canonical pattern — the match
at the least position, every smaller position carrying no match — and raises
the `CaseNumberNotFound` error exactly when no position carries a
boundary-delimited match (a match not immediately preceded or followed by a
letter, digit or underscore). -/
theorem parse_case_number_first_boundary_match (text : String) :
    match firstBoundaryIdx none text.toList with
    | some (i, s) =>
        _parse_case_number text = .ok s ∧
        bMatchAt none text.toList i = some s ∧
        (List.range i).all (fun j => (bMatchAt none text.toList j).isNone) = true
    | none =>
        _parse_case_number text = .error (.buildDbErr msgNoCaseNumber) ∧
        ∀ i : Nat, bMatchAt none text.toList i = none := by
  cases hf : firstBoundaryIdx none text.toList with
  | some p =>
    obtain ⟨i, s⟩ := p
    have H := (firstBoundaryIdx_spec text.toList none).1 i s hf
    refine ⟨?_, H.2.1, ?_⟩
    · unfold _parse_case_number
      rw [H.1]
    · rw [List.all_eq_true]
      intro j hj
      rw [List.mem_range] at hj
      rw [H.2.2 j hj]
      rfl
  | none =>
    have H := (firstBoundaryIdx_spec text.toList none).2 hf
    refine ⟨?_, H.2⟩
    unfold _parse_case_number
    rw [H.1]

/-! ### Lemmas about the process upsert -/

lemma updRow_number (n t p : String) (row : ProcessRow) :
    (updRow n t p row).number = row.number := by
  unfold updRow
  split <;> rfl

lemma find?_map_updRow (n t p n' : String) :
    ∀ l : List ProcessRow,
      (l.map (updRow n t p)).find? (fun r => decide (r.number = n')) =
        (l.find? (fun r => decide (r.number = n'))).map (updRow n t p) := by
  intro l
  induction l with
  | nil => rfl
  | cons r l ih =>
    by_cases h : r.number = n'
    · rw [List.map_cons,
        List.find?_cons_of_pos _ (by simp [updRow_number, h]),
        List.find?_cons_of_pos _ (by simp [h])]
      rfl
    · rw [List.map_cons,
        List.find?_cons_of_neg _ (by simp [updRow_number, h]),
        List.find?_cons_of_neg _ (by simp [h])]
      exact ih

lemma filter_map_updRow (n t p : String) (q : ProcessRow → Bool)
    (hq : ∀ r, q (updRow n t p r) = q r)
    (hid : ∀ r, q r = true → updRow n t p r = r) :
    ∀ l : List ProcessRow, (l.map (updRow n t p)).filter q = l.filter q := by
  intro l
  induction l with
  | nil => rfl
  | cons r l ih =>
    rw [List.map_cons, List.filter_cons, List.filter_cons, hq]
    by_cases h : q r = true
    · rw [if_pos h, if_pos h, hid r h, ih]
    · rw [if_neg h, if_neg h]
      exact ih

lemma find?_append_left_none {α : Type} {p : α → Bool} {l1 l2 : List α}
    (h : l1.find? p = none) : (l1 ++ l2).find? p = l2.find? p := by
  rw [List.find?_append, h, Option.none_or]

/-- After an upsert for `number`, a row with that number exists, and
`SELECT ... WHERE number = ?` finds one. -/
lemma findProcess_upsert_isSome (db : DBState) (n t p ts : String) :
    ∃ row, findProcess (upsertProcess db n t p ts) n = some row ∧
      row.number = n := by
  unfold findProcess upsertProcess
  by_cases hany : db.processes.any (fun row => decide (row.number = n)) = true
  · rw [if_pos hany]
    have hsome : (db.processes.find? (fun r => decide (r.number = n))).isSome = true := by
      rw [List.find?_isSome]
      rw [List.any_eq_true] at hany
      exact hany
    obtain ⟨row0, hrow0⟩ := Option.isSome_iff_exists.mp hsome
    have hnum0 : row0.number = n := by
      have := List.find?_some hrow0
      simpa using this
    refine ⟨updRow n t p row0, ?_, by rw [updRow_number]; exact hnum0⟩
    show (db.processes.map (updRow n t p)).find? (fun r => decide (r.number = n)) = _
    rw [find?_map_updRow, hrow0]
    rfl
  · rw [if_neg hany]
    have hnone : db.processes.find? (fun r => decide (r.number = n)) = none := by
      rw [List.find?_eq_none]
      rw [Bool.not_eq_true] at hany
      rw [List.any_eq_false] at hany
      exact hany
    refine ⟨⟨db.nextProcessId, n, t, p, ts⟩, ?_, rfl⟩
    show (db.processes ++ [(⟨db.nextProcessId, n, t, p, ts⟩ : ProcessRow)]).find?
        (fun r => decide (r.number = n)) = _
    rw [find?_append_left_none hnone, List.find?_cons_of_pos _ (by simp)]

lemma upsertProcess_fresh (db : DBState) (n t p ts : String)
    (hany : db.processes.any (fun row => decide (row.number = n)) = false) :
    upsertProcess db n t p ts =
      { db with
        processes := db.processes ++ [⟨db.nextProcessId, n, t, p, ts⟩],
        nextProcessId := db.nextProcessId + 1 } := by
  unfold upsertProcess
  rw [hany]
  rfl

lemma upsertProcess_conflict (db : DBState) (n t p ts : String)
    (hany : db.processes.any (fun row => decide (row.number = n)) = true) :
    upsertProcess db n t p ts =
      { db with processes := db.processes.map (updRow n t p) } := by
  unfold upsertProcess
  rw [hany]
  rfl

lemma get_process_id_eq (conn : Conn) (n t : String) (p : PyPath) (ts : String)
    (row : ProcessRow)
    (h : findProcess (upsertProcess conn.pending n t p.toStr ts) n = some row) :
    _get_process_id conn n t p ts =
      (⟨upsertProcess conn.pending n t p.toStr ts,
        upsertProcess conn.pending n t p.toStr ts⟩, .ok row.id) := by
  unfold _get_process_id
  rw [h]
  rfl

/-- C1: for every case number the store keeps at most one `Process` row;
re-importing a case number that already has a row (here: first inserted into a
store not containing it, then imported again) updates only that row's `title`
and `pdf_path`, preserves its integer `id` (assigned at first insertion) and
its `created_at`, creates no second row, and leaves rows of other case numbers
untouched, maintaining the one-row-per-number invariant. -/
theorem upsert_preserves_identity_and_uniqueness
    (conn : Conn) (n t1 t2 ts1 ts2 : String) (p1 p2 : PyPath)
    (hwf : WFdb conn.pending)
    (hfresh : findProcess conn.pending n = none) :
    (_get_process_id conn n t1 p1 ts1).2 = .ok conn.pending.nextProcessId ∧
    (_get_process_id (_get_process_id conn n t1 p1 ts1).1 n t2 p2 ts2).2 =
      .ok conn.pending.nextProcessId ∧
    findProcess (_get_process_id conn n t1 p1 ts1).1.committed n =
      some ⟨conn.pending.nextProcessId, n, t1, p1.toStr, ts1⟩ ∧
    findProcess
        (_get_process_id (_get_process_id conn n t1 p1 ts1).1 n t2 p2
          ts2).1.committed n =
      some ⟨conn.pending.nextProcessId, n, t2, p2.toStr, ts1⟩ ∧
    (_get_process_id (_get_process_id conn n t1 p1 ts1).1 n t2 p2
        ts2).1.committed.processes.countP
      (fun row => decide (row.number = n)) = 1 ∧
    (_get_process_id (_get_process_id conn n t1 p1 ts1).1 n t2 p2
        ts2).1.committed.processes.length =
      (_get_process_id conn n t1 p1 ts1).1.committed.processes.length ∧
    (_get_process_id (_get_process_id conn n t1 p1 ts1).1 n t2 p2
        ts2).1.committed.processes.filter (fun row => decide (row.number ≠ n)) =
      (_get_process_id conn n t1 p1 ts1).1.committed.processes.filter
        (fun row => decide (row.number ≠ n)) ∧
    WFdb (_get_process_id (_get_process_id conn n t1 p1 ts1).1 n t2 p2
        ts2).1.committed := by
  have hfind0 : conn.pending.processes.find? (fun r => decide (r.number = n)) =
      none := hfresh
  have hmem0 : ∀ a ∈ conn.pending.processes, ¬ (decide (a.number = n)) = true :=
    List.find?_eq_none.mp hfind0
  have hany1 : conn.pending.processes.any (fun row => decide (row.number = n)) =
      false := List.any_eq_false.mpr hmem0
  have hU1 := upsertProcess_fresh conn.pending n t1 p1.toStr ts1 hany1
  have hfp1 : findProcess (upsertProcess conn.pending n t1 p1.toStr ts1) n =
      some ⟨conn.pending.nextProcessId, n, t1, p1.toStr, ts1⟩ := by
    rw [hU1]
    show (conn.pending.processes ++
        [(⟨conn.pending.nextProcessId, n, t1, p1.toStr, ts1⟩ : ProcessRow)]).find?
        (fun r => decide (r.number = n)) = _
    rw [find?_append_left_none hfind0, List.find?_cons_of_pos _ (by simp)]
  have hr1 := get_process_id_eq conn n t1 p1 ts1 _ hfp1
  have hmem1 : (⟨conn.pending.nextProcessId, n, t1, p1.toStr, ts1⟩ : ProcessRow) ∈
      (upsertProcess conn.pending n t1 p1.toStr ts1).processes := by
    rw [hU1]
    show _ ∈ conn.pending.processes ++
      [(⟨conn.pending.nextProcessId, n, t1, p1.toStr, ts1⟩ : ProcessRow)]
    exact List.mem_append_right _ (List.mem_singleton_self _)
  have hany2 : (upsertProcess conn.pending n t1 p1.toStr ts1).processes.any
      (fun row => decide (row.number = n)) = true :=
    List.any_eq_true.mpr ⟨_, hmem1, by simp⟩
  have hU2 := upsertProcess_conflict
    (upsertProcess conn.pending n t1 p1.toStr ts1) n t2 p2.toStr ts2 hany2
  have hfp1' : (upsertProcess conn.pending n t1 p1.toStr ts1).processes.find?
      (fun r => decide (r.number = n)) =
      some ⟨conn.pending.nextProcessId, n, t1, p1.toStr, ts1⟩ := hfp1
  have hfp2 : findProcess
      (upsertProcess (upsertProcess conn.pending n t1 p1.toStr ts1) n t2
        p2.toStr ts2) n =
      some ⟨conn.pending.nextProcessId, n, t2, p2.toStr, ts1⟩ := by
    rw [hU2]
    show ((upsertProcess conn.pending n t1 p1.toStr ts1).processes.map
        (updRow n t2 p2.toStr)).find? (fun r => decide (r.number = n)) = _
    rw [find?_map_updRow, hfp1']
    simp [updRow]
  have hr2 := get_process_id_eq
    (⟨upsertProcess conn.pending n t1 p1.toStr ts1,
      upsertProcess conn.pending n t1 p1.toStr ts1⟩ : Conn) n t2 p2 ts2 _ hfp2
  have hfun : ((fun row => decide (row.number = n)) ∘ updRow n t2 p2.toStr) =
      (fun row : ProcessRow => decide (row.number = n)) := by
    funext r
    simp [Function.comp, updRow_number]
  refine ⟨?_, ?_, ?_, ?_, ?_, ?_, ?_, ?_⟩
  · simp only [hr1]
  · simp only [hr1, hr2]
  · simp only [hr1]
    exact hfp1
  · simp only [hr1, hr2]
    exact hfp2
  · simp only [hr1, hr2]
    rw [hU2]
    show ((upsertProcess conn.pending n t1 p1.toStr ts1).processes.map
        (updRow n t2 p2.toStr)).countP (fun row => decide (row.number = n)) = 1
    rw [List.countP_map, hfun, hU1]
    show (conn.pending.processes ++
        [(⟨conn.pending.nextProcessId, n, t1, p1.toStr, ts1⟩ : ProcessRow)]).countP
        (fun row => decide (row.number = n)) = 1
    rw [List.countP_append, List.countP_eq_zero.mpr hmem0,
      List.countP_singleton]
    simp
  · simp only [hr1, hr2]
    rw [hU2]
    show ((upsertProcess conn.pending n t1 p1.toStr ts1).processes.map
        (updRow n t2 p2.toStr)).length =
      (upsertProcess conn.pending n t1 p1.toStr ts1).processes.length
    rw [List.length_map]
  · simp only [hr1, hr2]
    rw [hU2]
    show ((upsertProcess conn.pending n t1 p1.toStr ts1).processes.map
        (updRow n t2 p2.toStr)).filter (fun row => decide (row.number ≠ n)) =
      (upsertProcess conn.pending n t1 p1.toStr ts1).processes.filter
        (fun row => decide (row.number ≠ n))
    refine filter_map_updRow n t2 p2.toStr _ ?_ ?_ _
    · intro r
      simp [updRow_number]
    · intro r h
      unfold updRow
      rw [if_neg]
      simp only [decide_eq_true_eq] at h
      exact h
  · simp only [hr1, hr2]
    rw [hU2]
    show WFdb { (upsertProcess conn.pending n t1 p1.toStr ts1) with
      processes := (upsertProcess conn.pending n t1 p1.toStr ts1).processes.map
        (updRow n t2 p2.toStr) }
    unfold WFdb
    show ((upsertProcess conn.pending n t1 p1.toStr ts1).processes.map
        (updRow n t2 p2.toStr)).Pairwise (fun a b => a.number ≠ b.number)
    have hpair1 : (upsertProcess conn.pending n t1 p1.toStr
        ts1).processes.Pairwise (fun a b => a.number ≠ b.number) := by
      rw [hU1]
      show (conn.pending.processes ++
          [(⟨conn.pending.nextProcessId, n, t1, p1.toStr, ts1⟩ :
            ProcessRow)]).Pairwise (fun a b => a.number ≠ b.number)
      rw [List.pairwise_append]
      refine ⟨hwf, List.pairwise_singleton _ _, ?_⟩
      intro a ha b hb
      have hbn : b.number = n := by
        rw [List.mem_singleton] at hb
        rw [hb]
      rw [hbn]
      have := hmem0 a ha
      simp only [decide_eq_true_eq] at this
      exact this
    exact List.Pairwise.map _ (fun a b hab => by
      rw [updRow_number, updRow_number]; exact hab) hpair1

/-- Witness for C1 at a concrete fresh store: importing case number
`"1234567-89.2024.1.23.4567"` twice through `_get_process_id` yields id 1 both
times, the single row carries the second title and path with the first
`created_at`, and the store holds exactly one row for that number. -/
theorem upsert_preserves_identity_and_uniqueness_witness :
    WFdb (connect DBState.empty).pending ∧
    findProcess (connect DBState.empty).pending "1234567-89.2024.1.23.4567" =
      none ∧
    ((_get_process_id (connect DBState.empty) "1234567-89.2024.1.23.4567" "t1"
        ⟨"d", "a.pdf"⟩ "T1").2 = .ok 1 ∧
      (_get_process_id
          (_get_process_id (connect DBState.empty) "1234567-89.2024.1.23.4567"
            "t1" ⟨"d", "a.pdf"⟩ "T1").1 "1234567-89.2024.1.23.4567" "t2"
          ⟨"d", "b.pdf"⟩ "T2").2 = .ok 1) := by
  refine ⟨List.Pairwise.nil, rfl, ?_⟩
  have H := upsert_preserves_identity_and_uniqueness (connect DBState.empty)
    "1234567-89.2024.1.23.4567" "t1" "t2" "T1" "T2" ⟨"d", "a.pdf"⟩
    ⟨"d", "b.pdf"⟩ List.Pairwise.nil rfl
  exact ⟨H.1, H.2.1⟩

/-! ### Lemmas about event/document replacement -/

/-- The database state the loop body of `persist_import_results` builds for
one result once the process id `pid` is known: delete that process's events
and documents, insert the parsed events and the one document row. -/
def persistedDb (db : DBState) (r : PdfImportResult) (now : String)
    (pid : Nat) : DBState :=
  insertDocument
    (insertEvents pid
      { db with
        events := db.events.filter (fun ev => decide (ev.process_id ≠ pid)),
        documents :=
          db.documents.filter (fun doc => decide (doc.process_id ≠ pid)) }
      r.events)
    pid r.stored_path.name r.document_text now

lemma persistResult_eq (conn : Conn) (r : PdfImportResult) (now : String)
    (row : ProcessRow)
    (h : findProcess
        (upsertProcess conn.pending r.process_number r.title r.stored_path.toStr
          now) r.process_number = some row) :
    persistResult conn r now =
      (⟨persistedDb
          (upsertProcess conn.pending r.process_number r.title
            r.stored_path.toStr now) r now row.id,
        persistedDb
          (upsertProcess conn.pending r.process_number r.title
            r.stored_path.toStr now) r now row.id⟩, none) := by
  unfold persistResult _get_process_id
  rw [h]
  rfl

lemma insertEvents_events (pid : Nat) :
    ∀ (evs : List (String × String)) (db : DBState),
      (insertEvents pid db evs).events =
        db.events ++ eventRowsFrom pid db.nextEventId evs := by
  intro evs
  induction evs with
  | nil =>
    intro db
    show db.events = db.events ++ []
    rw [List.append_nil]
  | cons ev rest ih =>
    intro db
    obtain ⟨date, desc⟩ := ev
    show (insertEvents pid
        { db with
          events := db.events ++ [⟨db.nextEventId, pid, date, desc⟩],
          nextEventId := db.nextEventId + 1 } rest).events = _
    rw [ih]
    show (db.events ++ [(⟨db.nextEventId, pid, date, desc⟩ : EventRow)]) ++
        eventRowsFrom pid (db.nextEventId + 1) rest =
      db.events ++ ((⟨db.nextEventId, pid, date, desc⟩ : EventRow) ::
        eventRowsFrom pid (db.nextEventId + 1) rest)
    rw [List.append_assoc, List.singleton_append]

lemma insertEvents_documents (pid : Nat) :
    ∀ (evs : List (String × String)) (db : DBState),
      (insertEvents pid db evs).documents = db.documents := by
  intro evs
  induction evs with
  | nil => intro db; rfl
  | cons ev rest ih =>
    intro db
    obtain ⟨date, desc⟩ := ev
    show (insertEvents pid
        { db with
          events := db.events ++ [⟨db.nextEventId, pid, date, desc⟩],
          nextEventId := db.nextEventId + 1 } rest).documents = _
    rw [ih]

lemma insertEvents_processes (pid : Nat) :
    ∀ (evs : List (String × String)) (db : DBState),
      (insertEvents pid db evs).processes = db.processes := by
  intro evs
  induction evs with
  | nil => intro db; rfl
  | cons ev rest ih =>
    intro db
    obtain ⟨date, desc⟩ := ev
    show (insertEvents pid
        { db with
          events := db.events ++ [⟨db.nextEventId, pid, date, desc⟩],
          nextEventId := db.nextEventId + 1 } rest).processes = _
    rw [ih]

lemma insertEvents_nextDocumentId (pid : Nat) :
    ∀ (evs : List (String × String)) (db : DBState),
      (insertEvents pid db evs).nextDocumentId = db.nextDocumentId := by
  intro evs
  induction evs with
  | nil => intro db; rfl
  | cons ev rest ih =>
    intro db
    obtain ⟨date, desc⟩ := ev
    show (insertEvents pid
        { db with
          events := db.events ++ [⟨db.nextEventId, pid, date, desc⟩],
          nextEventId := db.nextEventId + 1 } rest).nextDocumentId = _
    rw [ih]

lemma persistedDb_processes (db : DBState) (r : PdfImportResult) (now : String)
    (pid : Nat) : (persistedDb db r now pid).processes = db.processes := by
  unfold persistedDb insertDocument
  rw [insertEvents_processes]

lemma persistedDb_events (db : DBState) (r : PdfImportResult) (now : String)
    (pid : Nat) :
    (persistedDb db r now pid).events =
      db.events.filter (fun ev => decide (ev.process_id ≠ pid)) ++
        eventRowsFrom pid db.nextEventId r.events := by
  unfold persistedDb insertDocument
  rw [insertEvents_events]

lemma persistedDb_documents (db : DBState) (r : PdfImportResult) (now : String)
    (pid : Nat) :
    (persistedDb db r now pid).documents =
      db.documents.filter (fun doc => decide (doc.process_id ≠ pid)) ++
        [⟨db.nextDocumentId, pid, r.stored_path.name, r.document_text, now⟩] := by
  unfold persistedDb insertDocument
  rw [insertEvents_documents, insertEvents_nextDocumentId]

lemma eventRowsFrom_filter_map (pid : Nat) :
    ∀ (evs : List (String × String)) (k : Nat),
      ((eventRowsFrom pid k evs).filter
          (fun e => decide (e.process_id = pid))).map
        (fun e => (e.event_date, e.description)) = evs := by
  intro evs
  induction evs with
  | nil => intro k; rfl
  | cons ev rest ih =>
    intro k
    obtain ⟨date, desc⟩ := ev
    show (((⟨k, pid, date, desc⟩ : EventRow) ::
        eventRowsFrom pid (k + 1) rest).filter
          (fun e => decide (e.process_id = pid))).map
        (fun e => (e.event_date, e.description)) = _
    rw [List.filter_cons, if_pos (by simp), List.map_cons, ih (k + 1)]

lemma events_filter_ne_filter_eq (pid : Nat) :
    ∀ l : List EventRow,
      ((l.filter (fun ev => decide (ev.process_id ≠ pid))).filter
        (fun ev => decide (ev.process_id = pid))) = [] := by
  intro l
  induction l with
  | nil => rfl
  | cons a l ih =>
    rw [List.filter_cons]
    by_cases h : a.process_id = pid
    · rw [if_neg (by simp [h])]
      exact ih
    · rw [if_pos (by simp [h]), List.filter_cons, if_neg (by simp [h])]
      exact ih

lemma docs_filter_ne_filter_eq (pid : Nat) :
    ∀ l : List DocumentRow,
      ((l.filter (fun doc => decide (doc.process_id ≠ pid))).filter
        (fun doc => decide (doc.process_id = pid))) = [] := by
  intro l
  induction l with
  | nil => rfl
  | cons a l ih =>
    rw [List.filter_cons]
    by_cases h : a.process_id = pid
    · rw [if_neg (by simp [h])]
      exact ih
    · rw [if_pos (by simp [h]), List.filter_cons, if_neg (by simp [h])]
      exact ih

/-- C2: persisting one `ImportResult` never raises, and afterwards the
committed `Event` rows of its `Process` are exactly the parsed
`(date, description)` pairs in parsed order, and its `Document` rows are
exactly one row with the stored file name and the full extracted text — any
rows the process had before are gone (delete-all-then-insert). -/
theorem persist_replaces_events_and_documents (conn : Conn)
    (r : PdfImportResult) (now : String) :
    (persistResult conn r now).2 = none ∧
    (match findProcess (persistResult conn r now).1.committed
        r.process_number with
     | some row =>
        ((persistResult conn r now).1.committed.events.filter
            (fun ev => decide (ev.process_id = row.id))).map
          (fun ev => (ev.event_date, ev.description)) = r.events ∧
        ((persistResult conn r now).1.committed.documents.filter
            (fun doc => decide (doc.process_id = row.id))).map
          (fun doc => (doc.file_name, doc.content)) =
          [(r.stored_path.name, r.document_text)]
     | none => False) := by
  obtain ⟨row, hfp, hnum⟩ := findProcess_upsert_isSome conn.pending
    r.process_number r.title r.stored_path.toStr now
  have hpr := persistResult_eq conn r now row hfp
  have hfind : findProcess
      (persistedDb
        (upsertProcess conn.pending r.process_number r.title
          r.stored_path.toStr now) r now row.id) r.process_number = some row := by
    unfold findProcess
    rw [persistedDb_processes]
    exact hfp
  constructor
  · simp only [hpr]
  · simp only [hpr]
    rw [hfind]
    constructor
    · rw [persistedDb_events, List.filter_append, events_filter_ne_filter_eq,
        List.nil_append, eventRowsFrom_filter_map]
    · rw [persistedDb_documents, List.filter_append, docs_filter_ne_filter_eq,
        List.nil_append, List.filter_cons, if_pos (by simp), List.map_cons]
      rfl

/-! ### Lemmas about the commit discipline -/

lemma upsertProcess_events (db : DBState) (n t p ts : String) :
    (upsertProcess db n t p ts).events = db.events := by
  unfold upsertProcess
  split <;> rfl

lemma upsertProcess_documents (db : DBState) (n t p ts : String) :
    (upsertProcess db n t p ts).documents = db.documents := by
  unfold upsertProcess
  split <;> rfl

/-- Whatever the re-query finds, the connection `_get_process_id` leaves
behind has the upsert committed (and nothing else pending). -/
lemma persistResultFailing_eq (c : Conn) (r : PdfImportResult) (now : String) :
    persistResultFailing c r now =
      ⟨upsertProcess c.pending r.process_number r.title r.stored_path.toStr now,
       upsertProcess c.pending r.process_number r.title r.stored_path.toStr
        now⟩ := by
  unfold persistResultFailing _get_process_id
  cases hf : findProcess
      (upsertProcess c.pending r.process_number r.title r.stored_path.toStr now)
      r.process_number with
  | some row => rfl
  | none => rfl

/-- Every loop iteration of `persist_import_results` ends in a commit, so the
connection it leaves behind has no pending changes. -/
lemma persist_import_results_clean :
    ∀ (results : List PdfImportResult) (conn : Conn) (now : String),
      conn.pending = conn.committed →
      ((persist_import_results conn results now).1).pending =
        ((persist_import_results conn results now).1).committed := by
  intro results
  induction results with
  | nil =>
    intro conn now h
    exact h
  | cons r rest ih =>
    intro conn now h
    obtain ⟨row, hfp, _⟩ := findProcess_upsert_isSome conn.pending
      r.process_number r.title r.stored_path.toStr now
    have hpr := persistResult_eq conn r now row hfp
    unfold persist_import_results
    rw [hpr]
    exact ih _ now rfl

/-- C8: persistence commits each `ImportResult` independently in submission
order; if a later result's unit of work fails anywhere between its upsert
commit and its final commit, the committed store still holds every earlier
result's events and documents unchanged, and its processes are exactly the
earlier ones with only the failing result's upsert applied — no cross-result
rollback. -/
theorem persist_commits_independently (conn : Conn)
    (pre : List PdfImportResult) (r : PdfImportResult) (now : String)
    (hclean : conn.pending = conn.committed) :
    (persistResultFailing (persist_import_results conn pre now).1 r
        now).committed.events =
      (persist_import_results conn pre now).1.committed.events ∧
    (persistResultFailing (persist_import_results conn pre now).1 r
        now).committed.documents =
      (persist_import_results conn pre now).1.committed.documents ∧
    (persistResultFailing (persist_import_results conn pre now).1 r
        now).committed.processes =
      (upsertProcess (persist_import_results conn pre now).1.committed
        r.process_number r.title r.stored_path.toStr now).processes := by
  have hc := persist_import_results_clean pre conn now hclean
  refine ⟨?_, ?_, ?_⟩
  · rw [persistResultFailing_eq]
    show (upsertProcess (persist_import_results conn pre now).1.pending
        r.process_number r.title r.stored_path.toStr now).events = _
    rw [upsertProcess_events, hc]
  · rw [persistResultFailing_eq]
    show (upsertProcess (persist_import_results conn pre now).1.pending
        r.process_number r.title r.stored_path.toStr now).documents = _
    rw [upsertProcess_documents, hc]
  · rw [persistResultFailing_eq]
    show (upsertProcess (persist_import_results conn pre now).1.pending
        r.process_number r.title r.stored_path.toStr now).processes = _
    rw [hc]

/-- Witness for C8: after persisting one result for case
`1111111-…` and then failing mid-way through a second result for case
`2222222-…`, the committed events are exactly those of the first result. -/
theorem persist_commits_independently_witness :
    (connect DBState.empty).pending = (connect DBState.empty).committed ∧
    (persistResultFailing (persist_import_results (connect DBState.empty)
        [⟨"1111111-11.1111.1.11.1111", "ta", [("01/01/2020", "ea")], "txta",
          ⟨"out/pdfs", "a.pdf"⟩⟩] "T").1
        ⟨"2222222-22.2222.2.22.2222", "tb", [("02/02/2020", "eb")], "txtb",
          ⟨"out/pdfs", "b.pdf"⟩⟩ "T").committed.events =
      (persist_import_results (connect DBState.empty)
        [⟨"1111111-11.1111.1.11.1111", "ta", [("01/01/2020", "ea")], "txta",
          ⟨"out/pdfs", "a.pdf"⟩⟩] "T").1.committed.events := by
  refine ⟨rfl, ?_⟩
  exact (persist_commits_independently (connect DBState.empty)
    [⟨"1111111-11.1111.1.11.1111", "ta", [("01/01/2020", "ea")], "txta",
      ⟨"out/pdfs", "a.pdf"⟩⟩]
    ⟨"2222222-22.2222.2.22.2222", "tb", [("02/02/2020", "eb")], "txtb",
      ⟨"out/pdfs", "b.pdf"⟩⟩ "T" rfl).1

/-! ### Lemmas about batch abortion -/

lemma loadLoop_error (converter : String → ConverterOutcome)
    (pdf_dir storage_dir : String) :
    ∀ (good : List DirEntry) (bad : DirEntry) (rest : List DirEntry)
      (err : BuildDbError),
      (∀ g ∈ good,
        (process_pdf converter storage_dir ⟨pdf_dir, g.name⟩).isOk = true) →
      process_pdf converter storage_dir ⟨pdf_dir, bad.name⟩ = .error err →
      loadLoop converter pdf_dir storage_dir (good ++ bad :: rest) =
        .error err := by
  intro good
  induction good with
  | nil =>
    intro bad rest err _ hbad
    show loadLoop converter pdf_dir storage_dir (bad :: rest) = .error err
    unfold loadLoop
    rw [hbad]
  | cons g good ih =>
    intro bad rest err hgood hbad
    have hg := hgood g (List.mem_cons_self g good)
    cases hres : process_pdf converter storage_dir ⟨pdf_dir, g.name⟩ with
    | error e =>
      rw [hres] at hg
      simp [Except.isOk, Except.toBool] at hg
    | ok res =>
      show loadLoop converter pdf_dir storage_dir
        (g :: (good ++ bad :: rest)) = .error err
      unfold loadLoop
      rw [hres, ih bad rest err
        (fun x hx => hgood x (List.mem_cons_of_mem g hx)) hbad]

/-- C5: if, among the files in filename-sorted order, every file before some
failing file processes cleanly and that file's extraction or parsing raises,
then the whole run raises that error: `load_pdf_results` yields no result list
(whatever follows the failing file), and `build_database` returns the initial
database state untouched — nothing at all is persisted for the run. -/
theorem build_database_aborts_on_first_error
    (converter : String → ConverterOutcome) (source_dir db_parent now : String)
    (entries good rest : List DirEntry) (bad : DirEntry)
    (err : BuildDbError) (db0 : DBState)
    (hsplit : _iter_pdf_files entries = good ++ bad :: rest)
    (hgood : ∀ g ∈ good,
      (process_pdf converter (db_parent ++ "/pdfs")
        ⟨source_dir, g.name⟩).isOk = true)
    (hbad : process_pdf converter (db_parent ++ "/pdfs")
      ⟨source_dir, bad.name⟩ = .error err) :
    load_pdf_results converter source_dir entries (db_parent ++ "/pdfs") =
      .error err ∧
    build_database converter source_dir entries db_parent db0 now =
      (db0, some err) := by
  have hload : load_pdf_results converter source_dir entries
      (db_parent ++ "/pdfs") = .error err := by
    unfold load_pdf_results
    rw [hsplit]
    exact loadLoop_error converter source_dir (db_parent ++ "/pdfs") good bad
      rest err hgood hbad
  refine ⟨hload, ?_⟩
  unfold build_database
  rw [hload]

/-- Witness for C5: with `a.pdf` extracting to a proper document and `b.pdf`
to text with no case number, the run over the directory `[b.pdf, a.pdf]`
(sorted: `a.pdf` first) fails with `CaseNumberNotFound` on `b.pdf` and leaves
the empty database untouched. -/
theorem build_database_aborts_on_first_error_witness :
    _iter_pdf_files [⟨"b.pdf", true⟩, ⟨"a.pdf", true⟩] =
      [⟨"a.pdf", true⟩] ++ ⟨"b.pdf", true⟩ :: [] ∧
    process_pdf
      (fun name => if name = "a.pdf" then
        ConverterOutcome.success
          "Proc A\n1111111-11.1111.1.11.1111\n01/01/2020 - ok"
       else ConverterOutcome.success "no case number here")
      ("out" ++ "/pdfs") ⟨"src", "b.pdf"⟩ =
      .error (.buildDbErr msgNoCaseNumber) ∧
    build_database
      (fun name => if name = "a.pdf" then
        ConverterOutcome.success
          "Proc A\n1111111-11.1111.1.11.1111\n01/01/2020 - ok"
       else ConverterOutcome.success "no case number here")
      "src" [⟨"b.pdf", true⟩, ⟨"a.pdf", true⟩] "out" DBState.empty "T" =
      (DBState.empty, some (.buildDbErr msgNoCaseNumber)) := by
  refine ⟨by decide, rfl, ?_⟩
  exact (build_database_aborts_on_first_error
    (fun name => if name = "a.pdf" then
      ConverterOutcome.success
        "Proc A\n1111111-11.1111.1.11.1111\n01/01/2020 - ok"
     else ConverterOutcome.success "no case number here")
    "src" "out" "T" [⟨"b.pdf", true⟩, ⟨"a.pdf", true⟩] [⟨"a.pdf", true⟩] []
    ⟨"b.pdf", true⟩ (.buildDbErr msgNoCaseNumber) DBState.empty (by decide)
    (by decide) rfl).2

/-! ### Lemmas about directory listing -/

lemma lexLe_trans : ∀ a b c : List Char,
    lexLe a b = true → lexLe b c = true → lexLe a c = true := by
  intro a
  induction a with
  | nil => intro b c _ _; rfl
  | cons x as ih =>
    intro b c h1 h2
    cases b with
    | nil => simp [lexLe] at h1
    | cons y bs =>
      cases c with
      | nil => simp [lexLe] at h2
      | cons z cs =>
        simp only [lexLe] at h1 h2 ⊢
        by_cases hxy : x < y
        · rw [if_pos hxy] at h1
          by_cases hyz : y < z
          · rw [if_pos (lt_trans hxy hyz)]
          · by_cases hyz2 : y = z
            · rw [if_pos (hyz2 ▸ hxy)]
            · rw [if_neg hyz, if_neg hyz2] at h2
              exact absurd h2 (by simp)
        · rw [if_neg hxy] at h1
          by_cases hxy2 : x = y
          · rw [if_pos hxy2] at h1
            subst hxy2
            by_cases hyz : x < z
            · rw [if_pos hyz]
            · rw [if_neg hyz] at h2 ⊢
              by_cases hyz2 : x = z
              · rw [if_pos hyz2] at h2 ⊢
                exact ih bs cs h1 h2
              · rw [if_neg hyz2] at h2
                exact absurd h2 (by simp)
          · rw [if_neg hxy2] at h1
            exact absurd h1 (by simp)

lemma lexLe_total : ∀ a b : List Char, lexLe a b = true ∨ lexLe b a = true := by
  intro a
  induction a with
  | nil => intro b; left; rfl
  | cons x as ih =>
    intro b
    cases b with
    | nil => right; rfl
    | cons y bs =>
      simp only [lexLe]
      rcases lt_trichotomy x y with hlt | heq | hgt
      · left
        rw [if_pos hlt]
      · subst heq
        rw [if_neg (lt_irrefl x), if_pos rfl, if_neg (lt_irrefl x), if_pos rfl]
        exact ih bs
      · right
        rw [if_pos hgt]

instance : IsTrans DirEntry entryLe :=
  ⟨fun _ _ _ hab hbc => lexLe_trans _ _ _ hab hbc⟩

instance : IsTotal DirEntry entryLe :=
  ⟨fun a b => lexLe_total a.name.toList b.name.toList⟩

lemma orderedInsert_of_le_head (x : DirEntry) :
    ∀ l : List DirEntry, (∀ z ∈ l, entryLe x z) →
      List.orderedInsert entryLe x l = x :: l := by
  intro l h
  cases l with
  | nil => rfl
  | cons y l =>
    unfold List.orderedInsert
    rw [if_pos (h y (List.mem_cons_self _ _))]

lemma filter_orderedInsert_pos (p : DirEntry → Bool) (x : DirEntry)
    (hx : p x = true) :
    ∀ l : List DirEntry, List.Sorted entryLe l →
      (List.orderedInsert entryLe x l).filter p =
        List.orderedInsert entryLe x (l.filter p) := by
  intro l
  induction l with
  | nil =>
    intro _
    show [x].filter p = [x]
    rw [List.filter_cons, if_pos hx]
    rfl
  | cons y l ih =>
    intro hs
    have hsl : List.Sorted entryLe l := hs.tail
    by_cases hxy : entryLe x y
    · have hL : List.orderedInsert entryLe x (y :: l) = x :: y :: l := by
        unfold List.orderedInsert
        rw [if_pos hxy]
      rw [hL]
      by_cases hy : p y = true
      · have hR : (y :: l).filter p = y :: l.filter p := by
          rw [List.filter_cons, if_pos hy]
        have hR2 : List.orderedInsert entryLe x (y :: l.filter p) =
            x :: y :: l.filter p := by
          unfold List.orderedInsert
          rw [if_pos hxy]
        rw [hR, hR2, List.filter_cons, if_pos hx, List.filter_cons, if_pos hy]
      · have hR : (y :: l).filter p = l.filter p := by
          rw [List.filter_cons, if_neg hy]
        rw [hR, List.filter_cons, if_pos hx, List.filter_cons, if_neg hy]
        exact (orderedInsert_of_le_head x (l.filter p) (fun z hz =>
          lexLe_trans _ _ _ hxy
            (List.rel_of_sorted_cons hs z (List.mem_of_mem_filter hz)))).symm
    · have hL : List.orderedInsert entryLe x (y :: l) =
          y :: List.orderedInsert entryLe x l := by
        show (if entryLe x y then x :: y :: l
          else y :: List.orderedInsert entryLe x l) = _
        rw [if_neg hxy]
      rw [hL, List.filter_cons]
      by_cases hy : p y = true
      · have hR : (y :: l).filter p = y :: l.filter p := by
          rw [List.filter_cons, if_pos hy]
        have hR2 : List.orderedInsert entryLe x (y :: l.filter p) =
            y :: List.orderedInsert entryLe x (l.filter p) := by
          show (if entryLe x y then x :: y :: l.filter p
            else y :: List.orderedInsert entryLe x (l.filter p)) = _
          rw [if_neg hxy]
        rw [if_pos hy, hR, hR2, ih hsl]
      · have hR : (y :: l).filter p = l.filter p := by
          rw [List.filter_cons, if_neg hy]
        rw [if_neg hy, hR, ih hsl]

lemma filter_orderedInsert_neg (p : DirEntry → Bool) (x : DirEntry)
    (hx : p x = false) :
    ∀ l : List DirEntry,
      (List.orderedInsert entryLe x l).filter p = l.filter p := by
  intro l
  induction l with
  | nil =>
    show [x].filter p = []
    rw [List.filter_cons, if_neg (by rw [hx]; exact Bool.false_ne_true)]
    rfl
  | cons y l ih =>
    by_cases hxy : entryLe x y
    · have hL : List.orderedInsert entryLe x (y :: l) = x :: y :: l := by
        show (if entryLe x y then x :: y :: l
          else y :: List.orderedInsert entryLe x l) = _
        rw [if_pos hxy]
      rw [hL, List.filter_cons, if_neg (by rw [hx]; exact Bool.false_ne_true)]
    · have hL : List.orderedInsert entryLe x (y :: l) =
          y :: List.orderedInsert entryLe x l := by
        show (if entryLe x y then x :: y :: l
          else y :: List.orderedInsert entryLe x l) = _
        rw [if_neg hxy]
      rw [hL, List.filter_cons, List.filter_cons, ih]

/-- Filtering a stably insertion-sorted list equals sorting the filtered
list. -/
lemma filter_insertionSort (p : DirEntry → Bool) :
    ∀ l : List DirEntry,
      (List.insertionSort entryLe l).filter p =
        List.insertionSort entryLe (l.filter p) := by
  intro l
  induction l with
  | nil => rfl
  | cons x l ih =>
    show (List.orderedInsert entryLe x (List.insertionSort entryLe l)).filter p
      = _
    by_cases hx : p x = true
    · rw [filter_orderedInsert_pos p x hx _
        (List.sorted_insertionSort entryLe l), ih]
      have hc : (x :: l).filter p = x :: l.filter p := by
        rw [List.filter_cons, if_pos hx]
      rw [hc]
      rfl
    · have hx' : p x = false := by
        rwa [Bool.not_eq_true] at hx
      rw [filter_orderedInsert_neg p x hx', ih]
      have hc : (x :: l).filter p = l.filter p := by
        rw [List.filter_cons, if_neg hx]
      rw [hc]

/-- C10: the pipeline visits exactly the regular files whose names end in the
(case-sensitive) `.pdf`, in code-point-lexicographic name order; every other
directory entry — uppercase `.PDF`, other suffixes, non-files — contributes
nothing.  Concretely checked on a mixed directory, matching CPython
`pathlib.Path.glob` behaviour (dot-files included). -/
theorem iter_pdf_files_spec :
    (∀ entries : List DirEntry,
      _iter_pdf_files entries =
        List.insertionSort entryLe
          (entries.filter (fun e => e.isFile && globMatchPdf e.name))) ∧
    _iter_pdf_files
      [⟨"a.pdf", true⟩, ⟨"B.PDF", true⟩, ⟨".hidden.pdf", true⟩, ⟨".pdf", true⟩,
       ⟨"c.pdfx", true⟩, ⟨"z z.pdf", true⟩, ⟨"d.pdf", false⟩] =
      [⟨".hidden.pdf", true⟩, ⟨".pdf", true⟩, ⟨"a.pdf", true⟩,
       ⟨"z z.pdf", true⟩] := by
  refine ⟨fun entries => ?_, by decide⟩
  unfold _iter_pdf_files
  rw [filter_insertionSort, List.filter_filter]

/-! ## Model validation

Concrete evaluations of the embedded parsers, pipeline and store, each checked
against the corresponding CPython behaviour (`re`, `str`, `pathlib`,
`sqlite3`) on the same inputs. -/

section ModelValidation
example : _parse_case_number "xx 1234567-89.2024.1.23.4567 yy 9999999-99.9999.9.99.9999" =
    .ok "1234567-89.2024.1.23.4567" := rfl
example : _parse_case_number "a1234567-89.0123.4.56.7890" =
    .error (.buildDbErr msgNoCaseNumber) := rfl
example : _parse_case_number ".1234567-89.0123.4.56.7890" =
    .ok "1234567-89.0123.4.56.7890" := rfl
example : _parse_case_number "1234567-89.0123.4.56.78901" =
    .error (.buildDbErr msgNoCaseNumber) := rfl
example : lexLe "a.pdf".toList "a.pdfx".toList = true := by decide
-- cross-checks of `_parse_events` against CPython `re` outputs
example : _parse_events "01/02/2023\n- x" = [("01/02/2023", "x")] := rfl
example : _parse_events "01/01/2020 - \nabc" = [("01/01/2020", "abc")] := rfl
example : primaryEvents "01/01/2020 -  " = [("01/01/2020", "")] := rfl
example : primaryEvents "01/01/2020 - " = [] := rfl
example : _parse_events "01/01/2020  -  foo  " = [("01/01/2020", "foo")] := rfl
example : primaryEvents "a 01/01/2020 - foo" = [] := rfl
example : _parse_events "01/01/2020 - foo\n02/01/2020 - bar" =
    [("01/01/2020", "foo"), ("02/01/2020", "bar")] := rfl
example : primaryEvents "01/01/2020 -foo" = [] := rfl
example : primaryEvents "01/01/2020- foo" = [] := rfl
example : _parse_events "x\n01/01/2020 - foo" = [("01/01/2020", "foo")] := rfl
example : fallbackEvents "01/01/2020   " = [("01/01/2020", "")] := rfl
example : fallbackEvents "01/01/2020" = [] := rfl
example : _parse_events "01/01/2020\nfoo" = [("01/01/2020", "foo")] := rfl
example : _parse_events "01/01/2020 foo\n02/02/2021\tbar" =
    [("01/01/2020", "foo"), ("02/02/2021", "bar")] := rfl
example : _parse_events "01/01/2020 - x\n02/02/2021 y" = [("01/01/2020", "x")] := rfl
example : _derive_title "\n\nHello World\nMore text" = "Hello World" := rfl
example : _derive_title "  \n \n" = "Processo sem título" := rfl
example : pySplitlines "a\r\nb\nc" = ["a", "b", "c"] := rfl
-- cross-check of `_iter_pdf_files` against CPython `pathlib` glob + sort
example : _iter_pdf_files
    [⟨"a.pdf", true⟩, ⟨"B.PDF", true⟩, ⟨".hidden.pdf", true⟩, ⟨".pdf", true⟩,
     ⟨"c.pdfx", true⟩, ⟨"z z.pdf", true⟩, ⟨"d.pdf", false⟩] =
    [⟨".hidden.pdf", true⟩, ⟨".pdf", true⟩, ⟨"a.pdf", true⟩, ⟨"z z.pdf", true⟩] := by
  decide
-- a small end-to-end run
example :
    (build_database
      (fun _ => .success "Proc X\n1234567-89.2024.1.23.4567\n01/01/2020 - ok")
      "src" [⟨"a.pdf", true⟩] "out" DBState.empty "T").2 = none := by decide
example :
    ((build_database
      (fun _ => .success "Proc X\n1234567-89.2024.1.23.4567\n01/01/2020 - ok")
      "src" [⟨"a.pdf", true⟩] "out" DBState.empty "T").1).processes =
    [⟨1, "1234567-89.2024.1.23.4567", "Proc X", "out/pdfs/a.pdf", "T"⟩] := by decide
example :
    ((build_database
      (fun _ => .success "Proc X\n1234567-89.2024.1.23.4567\n01/01/2020 - ok")
      "src" [⟨"a.pdf", true⟩] "out" DBState.empty "T").1).events =
    [⟨1, 1, "01/01/2020", "ok"⟩] := by decide
end ModelValidation
